import Mathlib

/-!
Verification development for the `fiance_catch` personal-finance ledger.

The repository's core is `app/logic.py` (amount/direction validators),
`app/db.py` (schema initialization / migration) and `app/repo.py`
(account and transaction repositories over SQLite).  This file gives a
shallow embedding of those functions and proves the specification's
claims about them.

Conventions:
* SQLite TEXT values are Lean `String`s; the BINARY collation (byte-wise
  comparison of UTF-8) coincides with lexicographic comparison of
  code points, which `charListLe` below implements.
* `amount_cents` is a `Nat` (the schema constrains it to be ≥ 0).
* Python exceptions become explicit result constructors.
-/

/-! ## Lexicographic comparison of character lists

SQLite orders TEXT columns by byte-wise comparison of their UTF-8
encodings; on code-point lists this is exactly lexicographic order.
We implement it as a boolean function so that everything evaluates.
-/

def charListLe : List Char → List Char → Bool
  | [], _ => true
  | _ :: _, [] => false
  | a :: as, b :: bs =>
    if a.toNat < b.toNat then true
    else if b.toNat < a.toNat then false
    else charListLe as bs

theorem charListLe_refl (as : List Char) : charListLe as as = true := by
  induction as with
  | nil => rfl
  | cons a as ih => simp [charListLe, ih]

theorem charListLe_total (as bs : List Char) :
    charListLe as bs = true ∨ charListLe bs as = true := by
  induction as generalizing bs with
  | nil => left; rfl
  | cons a as ih =>
    cases bs with
    | nil => right; rfl
    | cons b bs =>
      rcases Nat.lt_trichotomy a.toNat b.toNat with h | h | h
      · left; simp [charListLe, h]
      · rcases ih bs with h2 | h2
        · left; simp [charListLe, h, h2]
        · right; simp [charListLe, h.symm, h2]
      · right; simp [charListLe, h]

theorem charListLe_antisymm {as bs : List Char} :
    charListLe as bs = true → charListLe bs as = true → as = bs := by
  induction as generalizing bs with
  | nil =>
    cases bs with
    | nil => intro _ _; rfl
    | cons b bs => intro _ h2; simp [charListLe] at h2
  | cons a as ih =>
    cases bs with
    | nil => intro h1 _; simp [charListLe] at h1
    | cons b bs =>
      intro h1 h2
      rcases Nat.lt_trichotomy a.toNat b.toNat with h | h | h
      · simp [charListLe, h, Nat.not_lt.mpr (Nat.le_of_lt h)] at h2
      · have hch : a = b := Char.ext_iff.mpr (UInt32.ext_iff.mpr h)
        subst hch
        simp only [charListLe, lt_irrefl, if_false, if_neg (lt_irrefl a.toNat)] at h1 h2
        exact congrArg (a :: ·) (ih h1 h2)
      · simp [charListLe, h, Nat.not_lt.mpr (Nat.le_of_lt h)] at h1

theorem charListLe_trans {as bs cs : List Char} :
    charListLe as bs = true → charListLe bs cs = true → charListLe as cs = true := by
  induction as generalizing bs cs with
  | nil => intro _ _; rfl
  | cons a as ih =>
    cases bs with
    | nil => intro h1 _; simp [charListLe] at h1
    | cons b bs =>
      cases cs with
      | nil => intro _ h2; simp [charListLe] at h2
      | cons c cs =>
        intro h1 h2
        by_cases hab : a.toNat < b.toNat
        · by_cases hbc : b.toNat < c.toNat
          · simp [charListLe, Nat.lt_trans hab hbc]
          · by_cases hcb : c.toNat < b.toNat
            · simp [charListLe, hcb, Nat.not_lt.mpr (Nat.le_of_lt hcb)] at h2
            · have : b.toNat = c.toNat := Nat.le_antisymm (Nat.not_lt.mp hcb) (Nat.not_lt.mp hbc)
              simp [charListLe, this ▸ hab]
        · by_cases hba : b.toNat < a.toNat
          · simp [charListLe, hba, Nat.not_lt.mpr (Nat.le_of_lt hba)] at h1
          · have hab' : a.toNat = b.toNat := Nat.le_antisymm (Nat.not_lt.mp hba) (Nat.not_lt.mp hab)
            by_cases hbc : b.toNat < c.toNat
            · simp [charListLe, hab' ▸ hbc]
            · by_cases hcb : c.toNat < b.toNat
              · simp [charListLe, hcb, Nat.not_lt.mpr (Nat.le_of_lt hcb)] at h2
              · have hbc' : b.toNat = c.toNat := Nat.le_antisymm (Nat.not_lt.mp hcb) (Nat.not_lt.mp hbc)
                have hac : ¬ a.toNat < c.toNat := by omega
                have hca : ¬ c.toNat < a.toNat := by omega
                simp only [charListLe, if_neg hab, if_neg hba] at h1
                simp only [charListLe, if_neg hbc, if_neg hcb] at h2
                simp only [charListLe, if_neg hac, if_neg hca]
                exact ih h1 h2

/-- `strLe a b` : SQLite BINARY-collation comparison `a <= b` on TEXT. -/
def strLe (a b : String) : Bool := charListLe a.data b.data

/-! ## `app/logic.py` — amount parsing

`parse_amount_to_cents` (src/app/logic.py:10-22):

* rejects a non-string / whitespace-only input with `ValueError "amount required"`;
* builds `Decimal(s)`; a constructor failure is re-raised as
  `ValueError "amount invalid"`;
* `if d < 0` raises `ValueError "amount must be non-negative"` — but when `d`
  is a (signaling) NaN the comparison itself signals `decimal.InvalidOperation`,
  which is not caught;
* computes `(d * 100).quantize(Decimal("1"), rounding=ROUND_HALF_UP)` under the
  default context (precision 28, `InvalidOperation` trapped); an infinite `d`
  or a quantize result wider than 28 digits signals `decimal.InvalidOperation`,
  again not caught;
* if the (context-rounded) product `d * 100` differs from the quantized value,
  raises `ValueError "amount supports up to 2 decimals"`; otherwise returns the
  integer.

The model below reproduces the `Decimal` string grammar (optional sign,
digits with an optional point, optional exponent, `Inf`/`Infinity`,
`NaN`/`sNaN` with digit diagnostics, all case-insensitive, with
surrounding whitespace stripped and underscores discarded) and the
default-context arithmetic at precision 28.  The context's exponent
limits (`Emax`/`Emin` = ±999999) are not modelled: inputs whose
exponents approach them also escape with uncaught `decimal` exceptions
in the source, and every theorem below stays well inside that range.
-/

/-- The characters removed by Python's `str.strip()` (ASCII fragment). -/
def isPySpace (c : Char) : Bool :=
  c == ' ' || c == '\t' || c == '\n' || c == '\r' || c == '\x0b' || c == '\x0c'

def trimChars (cs : List Char) : List Char :=
  ((cs.dropWhile isPySpace).reverse.dropWhile isPySpace).reverse

/-- The `Decimal` constructor discards underscores wherever they appear. -/
def stripUnderscores (cs : List Char) : List Char :=
  cs.filter (fun c => c != '_')

def isAsciiDigit (c : Char) : Bool :=
  48 ≤ c.toNat && c.toNat ≤ 57

def digVal (c : Char) : Nat := c.toNat - 48

/-- Consume a leading `+`/`-`; `true` means negative. -/
def readSign (cs : List Char) : Bool × List Char :=
  match cs with
  | c :: rest =>
    if c = '-' then (true, rest)
    else if c = '+' then (false, rest)
    else (false, c :: rest)
  | [] => (false, [])

/-- Longest leading run of ASCII digits, as digit values, plus the rest. -/
def takeDigits : List Char → List Nat × List Char
  | [] => ([], [])
  | c :: cs =>
    if isAsciiDigit c then
      let r := takeDigits cs
      (digVal c :: r.1, r.2)
    else ([], c :: cs)

def natOfDigitList (ds : List Nat) : Nat :=
  ds.foldl (fun acc d => acc * 10 + d) 0

/-- A value produced by the `Decimal` constructor. -/
inductive DecValue where
  | finite (sign : Bool) (coeff : Nat) (exp : Int)
  | infinite (sign : Bool)
  | nan
  | snan
  deriving DecidableEq

/-- Exponent part after the `e`/`E` marker: optional sign and digits only. -/
def parseExpPart (cs : List Char) : Option Int :=
  match cs with
  | [] => none
  | _ =>
    let sr := readSign cs
    let dr := takeDigits sr.2
    if dr.1.isEmpty || !dr.2.isEmpty then none
    else some (if sr.1 then -(natOfDigitList dr.1 : Int) else (natOfDigitList dr.1 : Int))

/-- Digits after the coefficient: optional exponent part, then end of input. -/
def finishNumeric (ip fp : List Nat) (rest : List Char) : Option (Nat × Int) :=
  if ip.length + fp.length = 0 then none
  else
    let c := natOfDigitList (ip ++ fp)
    let fe : Int := -(fp.length : Int)
    match rest with
    | [] => some (c, fe)
    | e :: rest2 =>
      if e == 'e' || e == 'E' then
        match parseExpPart rest2 with
        | none => none
        | some ex => some (c, ex + fe)
      else none

/-- `digits [. digits] [ (e|E) [sign] digits ]`, at least one coefficient digit. -/
def parseNumericBody (cs : List Char) : Option (Nat × Int) :=
  let ipr := takeDigits cs
  match ipr.2 with
  | '.' :: rest =>
    let fpr := takeDigits rest
    finishNumeric ipr.1 fpr.1 fpr.2
  | other => finishNumeric ipr.1 [] other

/-- `low` is `w` followed only by digit diagnostics (the NaN payload form). -/
def isNanWord (low w : List Char) : Bool :=
  w.isPrefixOf low && (low.drop w.length).all isAsciiDigit

def decParseBody (sign : Bool) (cs : List Char) : Option DecValue :=
  let low := cs.map Char.toLower
  if low = "inf".data ∨ low = "infinity".data then some (.infinite sign)
  else if isNanWord low "nan".data then some .nan
  else if isNanWord low "snan".data then some .snan
  else match parseNumericBody cs with
       | none => none
       | some ce => some (.finite sign ce.1 ce.2)

/-- Dispatch after whitespace/underscore normalization: empty input is a
constructor error, otherwise read the sign and parse the body. -/
def decParseChars : List Char → Option DecValue
  | [] => none
  | c :: rest =>
    let sr := readSign (c :: rest)
    decParseBody sr.1 sr.2

/-- The `Decimal` string constructor (`none` = `decimal.InvalidOperation`). -/
def decParse (s : String) : Option DecValue :=
  decParseChars (stripUnderscores (trimChars s.data))

/-- Decimal digit count, fuel-based so that it evaluates structurally. -/
def digitCount : Nat → Nat → Nat
  | 0, _ => 1
  | fuel + 1, n => if n < 10 then 1 else digitCount fuel (n / 10) + 1

/-- Number of decimal digits of `n` (1 for `n = 0`), as `Decimal` counts them. -/
def numDigits (n : Nat) : Nat := digitCount n n

/-- Division rounding half to even (the default context's rounding). -/
def halfEvenDiv (a k : Nat) : Nat :=
  let q := a / k
  let r := a % k
  if 2 * r < k then q
  else if k < 2 * r then q + 1
  else if q % 2 = 0 then q else q + 1

/-- Division rounding half away from zero (`ROUND_HALF_UP` on nonnegatives). -/
def halfUpDiv (a k : Nat) : Nat := (a + k / 2) / k

/-- `d * 100` under the default context: exact product `c * 100 × 10^e`,
rounded half-even to 28 significant digits when wider. -/
def times100 (c : Nat) (e : Int) : Nat × Int :=
  let c0 := c * 100
  let nd := numDigits c0
  if nd ≤ 28 then (c0, e)
  else (halfEvenDiv c0 (10 ^ (nd - 28)), e + (nd - 28 : Nat))

/-- `x.quantize(Decimal("1"), rounding=ROUND_HALF_UP)` for `x = c × 10^e ≥ 0`;
`none` when the result needs more than 28 digits (`decimal.InvalidOperation`). -/
def quantizeHalfUpToInt (c : Nat) (e : Int) : Option Nat :=
  let n := if 0 ≤ e then c * 10 ^ e.toNat else halfUpDiv c (10 ^ (-e).toNat)
  if numDigits n ≤ 28 then some n else none

/-- Whether `c × 10^e = n` as exact rational values. -/
def valEqInt (c : Nat) (e : Int) (n : Nat) : Bool :=
  if 0 ≤ e then c * 10 ^ e.toNat == n else c == n * 10 ^ (-e).toNat

/-- Outcome of `parse_amount_to_cents`: the returned integer, a raised
`ValueError` (the documented `InvalidInput` failure), or an uncaught
`decimal.InvalidOperation` escaping the taxonomy. -/
inductive AmountResult where
  | ok (cents : Nat)
  | valueError (msg : String)
  | invalidOperation
  deriving DecidableEq

/-- Shallow embedding of `parse_amount_to_cents` (src/app/logic.py:10-22). -/
def parse_amount_to_cents (s : String) : AmountResult :=
  if (trimChars s.data).isEmpty then .valueError "amount required"
  else
    match decParse s with
    | none => .valueError "amount invalid"
    | some .nan => .invalidOperation
    | some .snan => .invalidOperation
    | some (.infinite sign) =>
      if sign then .valueError "amount must be non-negative"
      else .invalidOperation
    | some (.finite sign c e) =>
      if sign && c != 0 then .valueError "amount must be non-negative"
      else
        let m := times100 c e
        match quantizeHalfUpToInt m.1 m.2 with
        | none => .invalidOperation
        | some cents =>
          if valEqInt m.1 m.2 cents then .ok cents
          else .valueError "amount supports up to 2 decimals"

example : parse_amount_to_cents "0.01" = .ok 1 := by decide
example : parse_amount_to_cents "1" = .ok 100 := by decide
example : parse_amount_to_cents "10.05" = .ok 1005 := by decide
example : parse_amount_to_cents "1.2" = .ok 120 := by decide
example : parse_amount_to_cents "1.20" = .ok 120 := by decide
example : parse_amount_to_cents "" = .valueError "amount required" := by decide
example : parse_amount_to_cents "abc" = .valueError "amount invalid" := by decide
example : parse_amount_to_cents "-1" = .valueError "amount must be non-negative" := by decide
example : parse_amount_to_cents "1.234" = .valueError "amount supports up to 2 decimals" := by decide
example : parse_amount_to_cents "NaN" = .invalidOperation := by decide
example : parse_amount_to_cents "Infinity" = .invalidOperation := by decide
example : parse_amount_to_cents "-Infinity" = .valueError "amount must be non-negative" := by decide
example : parse_amount_to_cents "1e+2" = .ok 10000 := by decide
example : parse_amount_to_cents "  1.5  " = .ok 150 := by decide
example : parse_amount_to_cents "_1" = .ok 100 := by decide
example : parse_amount_to_cents "-0" = .ok 0 := by decide
example : parse_amount_to_cents "1e30" = .invalidOperation := by decide

/-! ## `app/db.py` — schema initialization, at the level of table layouts

`init_db` (src/app/db.py:19-92) executes, in order:
1. `CREATE TABLE IF NOT EXISTS accounts (id, name, created_at, updated_at)`;
2. the `accounts_updated_at` trigger (no effect on layouts);
3. `INSERT OR IGNORE INTO accounts(id, name) VALUES (1, 'Default')`;
4. `CREATE TABLE IF NOT EXISTS transactions (id, account_id, date, direction,
   amount_cents, category, note, created_at, updated_at)`;
5. if `transactions` lacks `account_id`: `ALTER TABLE transactions ADD COLUMN
   account_id INTEGER NOT NULL DEFAULT 1`;
6. `UPDATE transactions SET account_id = 1 WHERE account_id IS NULL`;
7. the `transactions_updated_at` trigger and the composite index (no effect).

The model tracks each table's column-name list (the observable of
`PRAGMA table_info`, which `_column_exists` reads) and the set of ids
present in `accounts` (the observable of the seeding step).
-/

structure TableInfo where
  columns : List String
  deriving DecidableEq

structure SchemaDB where
  accounts : Option TableInfo
  transactions : Option TableInfo
  accountIds : List Nat
  deriving DecidableEq

/-- `_column_exists` (src/app/db.py:14-16), on an optional table layout. -/
def column_exists (t : Option TableInfo) (col : String) : Bool :=
  match t with
  | none => false
  | some ti => ti.columns.contains col

/-- Column list of the `CREATE TABLE accounts` statement in `init_db`. -/
def accountsCreateColumns : List String :=
  ["id", "name", "created_at", "updated_at"]

/-- Column list of the `CREATE TABLE transactions` statement in `init_db`. -/
def transactionsCreateColumns : List String :=
  ["id", "account_id", "date", "direction", "amount_cents", "category", "note",
   "created_at", "updated_at"]

/-- Shallow embedding of `init_db` (src/app/db.py:19-92) on table layouts. -/
def init_db (db : SchemaDB) : SchemaDB :=
  let db := { db with accounts := some (db.accounts.getD ⟨accountsCreateColumns⟩) }
  let db := { db with accountIds :=
    if db.accountIds.contains 1 then db.accountIds else db.accountIds ++ [1] }
  let db := { db with transactions := some (db.transactions.getD ⟨transactionsCreateColumns⟩) }
  if column_exists db.transactions "account_id" then db
  else { db with transactions :=
    (some ⟨(db.transactions.getD ⟨[]⟩).columns ++ ["account_id"]⟩) }

/-- A freshly created (empty) database file. -/
def emptySchemaDB : SchemaDB := ⟨none, none, []⟩

/-- The legacy layout built by `test_init_db_migrates_accounts_table_with_archived_column`:
an `accounts` table without the `archived` column holding rows 1 and 2,
and no `transactions` table. -/
def legacyAccountsDB : SchemaDB :=
  ⟨some ⟨accountsCreateColumns⟩, none, [1, 2]⟩

/-! ## `app/repo.py` — account and transaction repositories

Row-level state as the repository functions see it.  The repository
reads an `archived` column on `accounts` throughout, with `0` as its
default value for the seeded row and for `INSERT INTO accounts(name)`;
the `Account` record carries that flag.  (Whether `init_db` actually
provides the column is the subject of claim C1.)
-/

structure Account where
  id : Nat
  name : String
  archived : Bool
  deriving DecidableEq

structure Txn where
  id : Nat
  account_id : Nat
  date : String
  direction : String
  amount_cents : Nat
  category : String
  note : String
  deriving DecidableEq

structure DBState where
  accounts : List Account
  txns : List Txn
  nextAccountId : Nat
  nextTxnId : Nat
  deriving DecidableEq

/-- The Python `ValueError`s raised by the repository, i.e. the spec's
error taxonomy (§7). -/
inductive RepoError where
  | invalidInput
  | notFound
  | duplicateName
  | protectedErr
  | alreadyArchived
  | notArchived
  | hasTransactions
  deriving DecidableEq

/-- Row state after `init_db` on a fresh database: the seeded account 1
named `Default`, no transactions; `AUTOINCREMENT` continues from 2 and 1. -/
def initState : DBState :=
  ⟨[⟨1, "Default", false⟩], [], 2, 1⟩

/-- Python's `str.strip()` on a Lean string. -/
def pyStrip (s : String) : String := ⟨trimChars s.data⟩

/-- `create_account` (src/app/repo.py:40-55). -/
def create_account (st : DBState) (name : String) :
    Except RepoError (Nat × DBState) :=
  let account_name := pyStrip name
  if account_name = "" then .error .invalidInput
  else if st.accounts.any (fun a => a.name == account_name) then .error .duplicateName
  else
    let id := st.nextAccountId
    .ok (id, { st with
      accounts := st.accounts ++ [⟨id, account_name, false⟩],
      nextAccountId := id + 1 })

/-- `rename_account` (src/app/repo.py:58-82). -/
def rename_account (st : DBState) (account_id : Nat) (name : String) :
    Except RepoError DBState :=
  let account_name := pyStrip name
  if account_name = "" then .error .invalidInput
  else if (st.accounts.find? (fun a => a.id == account_id)).isNone then .error .notFound
  else if st.accounts.any (fun a => a.id != account_id && a.name == account_name) then
    .error .duplicateName
  else .ok { st with accounts :=
    (st.accounts.map (fun a => if a.id == account_id then { a with name := account_name } else a)) }

/-- `delete_account` (src/app/repo.py:85-103). -/
def delete_account (st : DBState) (account_id : Nat) :
    Except RepoError DBState :=
  if account_id = 1 then .error .protectedErr
  else if (st.accounts.find? (fun a => a.id == account_id)).isNone then .error .notFound
  else if 0 < (st.txns.filter (fun t => t.account_id == account_id)).length then
    .error .hasTransactions
  else .ok { st with accounts := st.accounts.filter (fun a => a.id != account_id) }

/-- `archive_account` (src/app/repo.py:106-122). -/
def archive_account (st : DBState) (account_id : Nat) :
    Except RepoError DBState :=
  if account_id = 1 then .error .protectedErr
  else
    match st.accounts.find? (fun a => a.id == account_id) with
    | none => .error .notFound
    | some a =>
      if a.archived then .error .alreadyArchived
      else .ok { st with accounts :=
        (st.accounts.map (fun b => if b.id == account_id then { b with archived := true } else b)) }

/-- `restore_account` (src/app/repo.py:125-139). -/
def restore_account (st : DBState) (account_id : Nat) :
    Except RepoError DBState :=
  match st.accounts.find? (fun a => a.id == account_id) with
  | none => .error .notFound
  | some a =>
    if !a.archived then .error .notArchived
    else .ok { st with accounts :=
      (st.accounts.map (fun b => if b.id == account_id then { b with archived := false } else b)) }

/-- `create_txn` (src/app/repo.py:142-160); the `REFERENCES accounts(id)`
foreign key (enforced, `PRAGMA foreign_keys = ON`) rejects an unknown
account, and the schema's CHECK constrains the direction enum. -/
def create_txn (st : DBState) (account_id : Nat) (date_str direction : String)
    (amount_cents : Nat) (category note : String) :
    Except RepoError (Nat × DBState) :=
  if (st.accounts.find? (fun a => a.id == account_id)).isNone then .error .invalidInput
  else if !(direction == "income" || direction == "expense") then .error .invalidInput
  else
    let id := st.nextTxnId
    .ok (id, { st with
      txns := st.txns ++ [⟨id, account_id, date_str, direction, amount_cents, category, note⟩],
      nextTxnId := id + 1 })

/-- The `WHERE account_id = ? AND date >= ? AND date <= ?` filter shared by
`list_txns` and `get_summary`. -/
def txnMatches (account_id : Nat) (startD stopD : String) (t : Txn) : Bool :=
  t.account_id == account_id && strLe startD t.date && strLe t.date stopD

/-- `ORDER BY date DESC, id DESC` as a (non-strict, total) relation. -/
def txnOrd (a b : Txn) : Prop :=
  (charListLe b.date.data a.date.data = true) ∧
  (charListLe a.date.data b.date.data = true → b.id ≤ a.id)

instance : DecidableRel txnOrd := fun a b => by unfold txnOrd; infer_instance

instance : IsTotal Txn txnOrd := by
  constructor
  intro a b
  rcases charListLe_total a.date.data b.date.data with h | h
  · by_cases h2 : charListLe b.date.data a.date.data = true
    · rcases Nat.le_total a.id b.id with h3 | h3
      · right; exact ⟨h, fun _ => h3⟩
      · left; exact ⟨h2, fun _ => h3⟩
    · right
      refine ⟨h, fun hba => absurd hba h2⟩
  · by_cases h2 : charListLe a.date.data b.date.data = true
    · rcases Nat.le_total a.id b.id with h3 | h3
      · right; exact ⟨h2, fun _ => h3⟩
      · left; exact ⟨h, fun _ => h3⟩
    · left
      refine ⟨h, fun hab => absurd hab h2⟩

instance : IsTrans Txn txnOrd := by
  constructor
  intro a b c hab hbc
  refine ⟨charListLe_trans hbc.1 hab.1, fun hac => ?_⟩
  have hds : a.date.data = b.date.data :=
    charListLe_antisymm (charListLe_trans hac hbc.1) hab.1
  have hds2 : b.date.data = c.date.data :=
    charListLe_antisymm (hds ▸ hac) hbc.1
  exact Nat.le_trans (hbc.2 (hds2 ▸ charListLe_refl _)) (hab.2 (hds ▸ charListLe_refl _))

/-- `list_txns` (src/app/repo.py:163-173). -/
def list_txns (st : DBState) (account_id : Nat) (startD stopD : String) : List Txn :=
  List.insertionSort txnOrd (st.txns.filter (txnMatches account_id startD stopD))

/-- `delete_txn` (src/app/repo.py:176-181). -/
def delete_txn (st : DBState) (txn_id : Nat) (account_id : Nat) : DBState :=
  { st with txns := st.txns.filter (fun t => !(t.id == txn_id && t.account_id == account_id)) }

/-- One `by_category` row of `get_summary`. -/
structure CatSum where
  category : String
  amount_cents : Nat
  deriving DecidableEq

/-- The summary dictionary returned by `get_summary`. -/
structure Summary where
  income_cents : Nat
  expense_cents : Nat
  by_category : List CatSum
  deriving DecidableEq

def sumAmounts (ts : List Txn) : Nat := (ts.map Txn.amount_cents).sum

/-- `ORDER BY amount_cents DESC, category ASC` on grouped rows. -/
def catOrd (a b : CatSum) : Prop :=
  (b.amount_cents ≤ a.amount_cents) ∧
  (a.amount_cents ≤ b.amount_cents → charListLe a.category.data b.category.data = true)

instance : DecidableRel catOrd := fun a b => by unfold catOrd; infer_instance

instance : IsTotal CatSum catOrd := by
  constructor
  intro a b
  rcases Nat.le_total a.amount_cents b.amount_cents with h | h
  · by_cases h2 : b.amount_cents ≤ a.amount_cents
    · rcases charListLe_total a.category.data b.category.data with h3 | h3
      · left; exact ⟨h2, fun _ => h3⟩
      · right; exact ⟨h, fun _ => h3⟩
    · right; exact ⟨h, fun hba => absurd hba h2⟩
  · by_cases h2 : a.amount_cents ≤ b.amount_cents
    · rcases charListLe_total a.category.data b.category.data with h3 | h3
      · left; exact ⟨h, fun _ => h3⟩
      · right; exact ⟨h2, fun _ => h3⟩
    · left; exact ⟨h, fun hab => absurd hab h2⟩

instance : IsTrans CatSum catOrd := by
  constructor
  intro a b c hab hbc
  refine ⟨Nat.le_trans hbc.1 hab.1, fun hac => ?_⟩
  have h1 : a.amount_cents = b.amount_cents :=
    Nat.le_antisymm (Nat.le_trans hac hbc.1) hab.1
  have h2 : b.amount_cents = c.amount_cents :=
    Nat.le_antisymm (h1 ▸ hac) hbc.1
  exact charListLe_trans (hab.2 (Nat.le_of_eq h1)) (hbc.2 (Nat.le_of_eq h2))

/-- `get_summary` (src/app/repo.py:184-214): totals over the filtered rows,
and the expense rows grouped by category, ordered by summed amount
descending then category ascending. -/
def get_summary (st : DBState) (account_id : Nat) (startD stopD : String) : Summary :=
  let rows := st.txns.filter (txnMatches account_id startD stopD)
  let income := sumAmounts (rows.filter (fun t => t.direction == "income"))
  let expRows := rows.filter (fun t => t.direction == "expense")
  let expense := sumAmounts expRows
  let cats := (expRows.map Txn.category).dedup
  let groups := cats.map
    (fun cname => CatSum.mk cname (sumAmounts (expRows.filter (fun t => t.category == cname))))
  ⟨income, expense, List.insertionSort catOrd groups⟩

/-- The account/transaction rows of the summary worked example
(`test_get_summary_totals_and_by_category`): all on account 1, ids in
insertion order. -/
def summaryExampleState : DBState :=
  ⟨[⟨1, "Default", false⟩],
   [⟨1, 1, "2026-02-05", "income", 500000, "salary", "monthly salary"⟩,
    ⟨2, 1, "2026-02-06", "expense", 1200, "food", "lunch"⟩,
    ⟨3, 1, "2026-02-07", "expense", 800, "food", "snack"⟩,
    ⟨4, 1, "2026-02-08", "expense", 30000, "rent", "monthly rent"⟩,
    ⟨5, 1, "2026-03-01", "expense", 999, "ignore", "outside range"⟩],
   2, 6⟩

example :
    get_summary summaryExampleState 1 "2026-02-01" "2026-02-28" =
      ⟨500000, 32000, [⟨"rent", 30000⟩, ⟨"food", 2000⟩]⟩ := by decide

/-! ## Claim C1 — the `archived` migration step is missing -/

/-- C1: the claim says that after `init_db` the `accounts` table has an
`archived` column (added with default 0 on legacy layouts, present on
fresh databases).  The code contradicts it — and its own test
`test_init_db_migrates_accounts_table_with_archived_column` and the
`SELECT ... archived FROM accounts` queries throughout `app/repo.py`:
`init_db`'s `CREATE TABLE accounts` lists no `archived` column and no
statement of `init_db` ever adds one, so on the test's legacy layout
(and on a freshly created database) the column is still absent
afterwards.  Account row 1 is seeded all the same. -/
theorem c1_init_db_leaves_accounts_without_archived_column :
    column_exists (init_db legacyAccountsDB).accounts "archived" = false ∧
    column_exists (init_db emptySchemaDB).accounts "archived" = false ∧
    column_exists (init_db legacyAccountsDB).transactions "account_id" = true ∧
    (init_db legacyAccountsDB).accountIds = [1, 2] ∧
    (init_db emptySchemaDB).accountIds = [1] := by decide

/-! ## Claim C9 — NaN / Infinity escape the error taxonomy -/

/-- C9: `"NaN"` and `"Infinity"` are non-empty, are accepted by the
`Decimal` constructor, and make `parse_amount_to_cents` signal an
uncaught `decimal.InvalidOperation` (for `"NaN"` at the `d < 0`
comparison, for `"Infinity"` at the `quantize` call) instead of the
`ValueError` used for the `InvalidInput` typed failure. -/
theorem c9_nan_and_infinity_escape_error_taxonomy :
    decParse "NaN" = some .nan ∧
    decParse "Infinity" = some (.infinite false) ∧
    parse_amount_to_cents "NaN" = .invalidOperation ∧
    parse_amount_to_cents "Infinity" = .invalidOperation := by decide

/-! ## Claim C3 — `parse_amount_to_cents`, input classification -/

/-- C3 counterexample: the claim partitions every string into "fails with
`InvalidInput`" and "returns the integer cent value".  `"NaN"` falls in
neither class (the `d < 0` comparison signals an uncaught
`decimal.InvalidOperation`), and neither does the 30-digit numeral
`"111…1"`, a perfectly decimal, non-negative, integral amount on which
`quantize` under the default 28-digit context signals
`decimal.InvalidOperation` as well. -/
theorem c3_counterexample_nan_and_wide_input :
    parse_amount_to_cents "NaN" = .invalidOperation ∧
    parse_amount_to_cents "111111111111111111111111111111" = .invalidOperation ∧
    ("111111111111111111111111111111" : String).length = 30 := by decide

/-! ## Claim C4 — round-trip of well-formed amount strings -/

/-- C4 counterexample: `"111111111111111111111111111.99"` is a valid
decimal numeral with exactly two fractional digits and non-negative
value, yet `parse_amount_to_cents` does not succeed on it: its value
times 100 has 29 significant digits, so `quantize` under the default
28-digit context signals an uncaught `decimal.InvalidOperation`. -/
theorem c4_counterexample_wide_round_trip :
    decParse "111111111111111111111111111.99" =
      some (.finite false 11111111111111111111111111199 (-2)) ∧
    parse_amount_to_cents "111111111111111111111111111.99" = .invalidOperation := by decide

/-! ## Digit-count and rounding lemmas -/

theorem digitCount_eq_log (fuel n : Nat) (h : n ≤ fuel) :
    digitCount fuel n = Nat.log 10 n + 1 := by
  induction fuel generalizing n with
  | zero =>
    have hn : n = 0 := Nat.le_zero.mp h
    subst hn
    simp [digitCount, Nat.log]
  | succ fuel ih =>
    by_cases hn : n < 10
    · have : Nat.log 10 n = 0 := Nat.log_eq_zero_iff.mpr (Or.inl hn)
      simp [digitCount, hn, this]
    · have h10 : 10 ≤ n := Nat.not_lt.mp hn
      have hdiv : n / 10 < n := Nat.div_lt_self (by omega) (by omega)
      have hlog : Nat.log 10 (n / 10) = Nat.log 10 n - 1 := Nat.log_div_base 10 n
      have hpos : Nat.log 10 n ≠ 0 := by
        intro h0
        rcases Nat.log_eq_zero_iff.mp h0 with h1 | h1 <;> omega
      rw [digitCount, if_neg hn, ih (n / 10) (by omega), hlog]
      omega

theorem numDigits_eq_log (n : Nat) : numDigits n = Nat.log 10 n + 1 :=
  digitCount_eq_log n n (Nat.le_refl n)

theorem numDigits_le_iff {n k : Nat} (hk : 1 ≤ k) : numDigits n ≤ k ↔ n < 10 ^ k := by
  rw [numDigits_eq_log]
  rcases Nat.eq_zero_or_pos n with h0 | h0
  · subst h0
    have hlog0 : Nat.log 10 0 = 0 := Nat.log_eq_zero_iff.mpr (Or.inl (by norm_num))
    rw [hlog0]
    constructor
    · intro _
      exact pow_pos (by norm_num) k
    · intro _
      omega
  · rw [Nat.lt_pow_iff_log_lt (by omega) (Nat.pos_iff_ne_zero.mp h0)]
    omega

theorem numDigits_pos (n : Nat) : 1 ≤ numDigits n := by
  rw [numDigits_eq_log]; omega

theorem lt_pow_numDigits (n : Nat) : n < 10 ^ numDigits n :=
  (numDigits_le_iff (numDigits_pos n)).mp (Nat.le_refl _)

theorem numDigits_mono {m n : Nat} (h : m ≤ n) : numDigits m ≤ numDigits n := by
  apply (numDigits_le_iff (numDigits_pos n)).mpr
  exact Nat.lt_of_le_of_lt h (lt_pow_numDigits n)

theorem numDigits_mul_pow_le (x k : Nat) :
    numDigits (x * 10 ^ k) ≤ numDigits x + k := by
  apply (numDigits_le_iff (by have := numDigits_pos x; omega)).mpr
  calc x * 10 ^ k < 10 ^ numDigits x * 10 ^ k :=
        (Nat.mul_lt_mul_right (pow_pos (by norm_num) k)).mpr (lt_pow_numDigits x)
    _ = 10 ^ (numDigits x + k) := (pow_add 10 (numDigits x) k).symm

theorem halfUpDiv_le (a k : Nat) (hk : 1 ≤ k) : halfUpDiv a k ≤ a := by
  unfold halfUpDiv
  rw [Nat.div_le_iff_le_mul_add_pred hk]
  have h1 : a ≤ k * a := Nat.le_mul_of_pos_left a hk
  omega

theorem halfUpDiv_exact {a k : Nat} (hk : 0 < k) (hdvd : k ∣ a) :
    halfUpDiv a k = a / k := by
  obtain ⟨q, rfl⟩ := hdvd
  unfold halfUpDiv
  have hlt : k / 2 < k := Nat.div_lt_self hk (by omega)
  rw [Nat.mul_comm k q, Nat.add_comm (q * k) (k / 2), Nat.add_mul_div_right _ q hk,
    Nat.div_eq_of_lt hlt, Nat.mul_div_cancel _ hk, Nat.zero_add]

theorem halfUpDiv_mul_eq_iff {a k : Nat} (hk : 0 < k) :
    halfUpDiv a k * k = a ↔ k ∣ a := by
  constructor
  · intro h
    exact ⟨halfUpDiv a k, by rw [Nat.mul_comm] at h; exact h.symm⟩
  · intro hdvd
    rw [halfUpDiv_exact hk hdvd, Nat.div_mul_cancel hdvd]

theorem halfEvenDiv_exact {a k : Nat} (hk : 0 < k) (hdvd : k ∣ a) :
    halfEvenDiv a k = a / k := by
  obtain ⟨q, rfl⟩ := hdvd
  unfold halfEvenDiv
  simp [Nat.mul_mod_right, hk]

/-! ## Claim C7 — transaction deletion is scoped to the (id, account) pair -/

/-- The two-account scenario of `test_transactions_are_scoped_by_account`:
a default-account income and a family-account (id 2) expense. -/
def scopeExampleState : DBState :=
  ⟨[⟨1, "Default", false⟩, ⟨2, "Family", false⟩],
   [⟨1, 1, "2026-03-10", "income", 100000, "salary", "default account"⟩,
    ⟨2, 2, "2026-03-11", "expense", 2500, "food", "family account"⟩],
   3, 3⟩

/-- C7: `delete_txn` removes exactly the rows matching both the transaction
id and the account id; a mismatched pairing leaves the state unchanged
and raises nothing; after a matching delete the transaction is gone from
every `list_txns` result, and — on the concrete scoped scenario — from
the summary as well. -/
theorem c7_delete_txn_requires_matching_pair (st : DBState) (txn_id account_id : Nat) :
    ((∀ t ∈ st.txns, ¬(t.id = txn_id ∧ t.account_id = account_id)) →
      delete_txn st txn_id account_id = st) ∧
    (∀ t, t ∈ (delete_txn st txn_id account_id).txns ↔
      (t ∈ st.txns ∧ ¬(t.id = txn_id ∧ t.account_id = account_id))) ∧
    (delete_txn st txn_id account_id).accounts = st.accounts ∧
    (∀ aid2 startD stopD, ∀ t ∈ list_txns (delete_txn st txn_id account_id) aid2 startD stopD,
      ¬(t.id = txn_id ∧ t.account_id = account_id)) ∧
    (delete_txn scopeExampleState 2 1 = scopeExampleState ∧
     list_txns scopeExampleState 2 "2026-03-01" "2026-03-31" =
       [⟨2, 2, "2026-03-11", "expense", 2500, "food", "family account"⟩] ∧
     list_txns (delete_txn scopeExampleState 2 2) 2 "2026-03-01" "2026-03-31" = [] ∧
     get_summary (delete_txn scopeExampleState 2 2) 2 "2026-03-01" "2026-03-31" = ⟨0, 0, []⟩) := by
  have hb : ∀ t, t ∈ (delete_txn st txn_id account_id).txns ↔
      (t ∈ st.txns ∧ ¬(t.id = txn_id ∧ t.account_id = account_id)) := by
    intro t
    simp [delete_txn, List.mem_filter]
    tauto
  refine ⟨?_, hb, rfl, ?_, by decide⟩
  · intro h
    cases st with
    | mk accounts txns na nt =>
      simp only [delete_txn, DBState.mk.injEq, true_and, and_true]
      rw [List.filter_eq_self]
      intro t ht
      have h2 := h t ht
      simp
      tauto
  · intro aid2 startD stopD t ht
    rw [list_txns, List.mem_insertionSort] at ht
    exact ((hb t).mp (List.mem_filter.mp ht).1).2

/-- Witness for C7 at a concrete mismatched pairing. -/
theorem c7_witness : delete_txn scopeExampleState 99 1 = scopeExampleState :=
  (c7_delete_txn_requires_matching_pair scopeExampleState 99 1).1 (by decide)

/-! ## Claim C6 — `delete_account` guard chain -/

/-- C6: `delete_account` fails with `Protected` on id 1; otherwise with
`NotFound` when no row has that id; otherwise with `HasTransactions`
when the account owns at least one transaction; otherwise it deletes
the row — and it succeeds exactly when the id is not 1, the account
exists and its owned-transaction count is zero. -/
theorem c6_delete_account_guards (st : DBState) (account_id : Nat) :
    (account_id = 1 → delete_account st account_id = .error .protectedErr) ∧
    (account_id ≠ 1 → (∀ a ∈ st.accounts, a.id ≠ account_id) →
      delete_account st account_id = .error .notFound) ∧
    (account_id ≠ 1 → (∃ a ∈ st.accounts, a.id = account_id) →
      (∃ t ∈ st.txns, t.account_id = account_id) →
      delete_account st account_id = .error .hasTransactions) ∧
    (account_id ≠ 1 → (∃ a ∈ st.accounts, a.id = account_id) →
      (∀ t ∈ st.txns, t.account_id ≠ account_id) →
      delete_account st account_id =
        .ok { st with accounts := st.accounts.filter (fun a => a.id != account_id) }) ∧
    ((∃ st2, delete_account st account_id = .ok st2) ↔
      (account_id ≠ 1 ∧ (∃ a ∈ st.accounts, a.id = account_id) ∧
        ∀ t ∈ st.txns, t.account_id ≠ account_id)) := by
  have hok : account_id ≠ 1 → (∃ a ∈ st.accounts, a.id = account_id) →
      (∀ t ∈ st.txns, t.account_id ≠ account_id) →
      delete_account st account_id =
        .ok { st with accounts := st.accounts.filter (fun a => a.id != account_id) } := by
    intro h1 h2 h3
    obtain ⟨a, ha, hid⟩ := h2
    have hsome : (st.accounts.find? (fun a => a.id == account_id)).isSome :=
      List.find?_isSome.mpr ⟨a, ha, by simp [hid]⟩
    cases hf : st.accounts.find? (fun a => a.id == account_id) with
    | none => rw [hf] at hsome; simp at hsome
    | some b =>
      have hnil : st.txns.filter (fun t => t.account_id == account_id) = [] :=
        List.filter_eq_nil_iff.mpr (by intro t ht; simpa using h3 t ht)
      simp [delete_account, h1, hf, hnil]
  refine ⟨?_, ?_, ?_, hok, ?_⟩
  · intro h1
    simp [delete_account, h1]
  · intro h1 h2
    have hfind : st.accounts.find? (fun a => a.id == account_id) = none :=
      List.find?_eq_none.mpr (by intro a ha; simpa using h2 a ha)
    simp [delete_account, h1, hfind]
  · intro h1 h2 h3
    obtain ⟨a, ha, hid⟩ := h2
    obtain ⟨t, ht, htid⟩ := h3
    have hsome : (st.accounts.find? (fun a => a.id == account_id)).isSome :=
      List.find?_isSome.mpr ⟨a, ha, by simp [hid]⟩
    cases hf : st.accounts.find? (fun a => a.id == account_id) with
    | none => rw [hf] at hsome; simp at hsome
    | some b =>
      have hpos : 0 < (st.txns.filter (fun t => t.account_id == account_id)).length :=
        List.length_pos_iff_exists_mem.mpr ⟨t, List.mem_filter.mpr ⟨ht, by simp [htid]⟩⟩
      simp [delete_account, h1, hf, hpos]
  · constructor
    · rintro ⟨st2, h⟩
      by_cases h1 : account_id = 1
      · simp [delete_account, h1] at h
      · cases hf : st.accounts.find? (fun a => a.id == account_id) with
        | none => simp [delete_account, h1, hf] at h
        | some b =>
          by_cases hpos : 0 < (st.txns.filter (fun t => t.account_id == account_id)).length
          · simp [delete_account, h1, hf, hpos] at h
          · refine ⟨h1, ⟨b, List.mem_of_find?_eq_some hf, by
              have := List.find?_some hf; simpa using this⟩, ?_⟩
            intro t ht htid
            apply hpos
            exact List.length_pos_iff_exists_mem.mpr
              ⟨t, List.mem_filter.mpr ⟨ht, by simp [htid]⟩⟩
    · rintro ⟨h1, h2, h3⟩
      exact ⟨_, hok h1 h2 h3⟩

/-- Witness for C6: on the `test_delete_account_safety_checks` shape —
account 3 "Empty" with no transactions — deletion succeeds and removes
exactly that row. -/
theorem c6_witness :
    delete_account ⟨[⟨1, "Default", false⟩, ⟨3, "Empty", false⟩],
        [⟨1, 1, "2026-03-20", "expense", 100, "misc", "x"⟩], 4, 2⟩ 3 =
      .ok ⟨[⟨1, "Default", false⟩], [⟨1, 1, "2026-03-20", "expense", 100, "misc", "x"⟩], 4, 2⟩ := by
  have h := (c6_delete_account_guards
    ⟨[⟨1, "Default", false⟩, ⟨3, "Empty", false⟩],
     [⟨1, 1, "2026-03-20", "expense", 100, "misc", "x"⟩], 4, 2⟩ 3).2.2.2.1
    (by decide) (by decide) (by decide)
  rw [h]
  rfl

/-! ## Claim C10 — `rename_account` has no Protected guard -/

/-- C10: `rename_account` never raises the `Protected` failure, and for any
name that is non-empty after trimming and does not collide with another
account's name it renames account 1, so the default account need not
keep the name `Default`. -/
theorem c10_rename_account_allows_default (st : DBState) (name : String)
    (hname : pyStrip name ≠ "")
    (hex : ∃ a ∈ st.accounts, a.id = 1)
    (hcol : ∀ a ∈ st.accounts, a.id ≠ 1 → a.name ≠ pyStrip name) :
    (∀ st2 aid2 n2, rename_account st2 aid2 n2 ≠ .error .protectedErr) ∧
    rename_account st 1 name =
      .ok { st with accounts :=
        (st.accounts.map (fun a => if a.id == 1 then { a with name := pyStrip name } else a)) } ∧
    (∀ st', rename_account st 1 name = .ok st' →
      ((∀ a ∈ st'.accounts, a.id = 1 → a.name = pyStrip name) ∧
        ∃ a ∈ st'.accounts, a.id = 1)) := by
  obtain ⟨a0, ha0, hid0⟩ := hex
  have hsome : (st.accounts.find? (fun a => a.id == 1)).isSome :=
    List.find?_isSome.mpr ⟨a0, ha0, by simp [hid0]⟩
  have hany : st.accounts.any (fun a => a.id != 1 && a.name == pyStrip name) = false := by
    rw [List.any_eq_false]
    intro a ha
    simp only [Bool.and_eq_true, bne_iff_ne, beq_iff_eq, not_and]
    intro hid
    exact hcol a ha hid
  have hmain : rename_account st 1 name =
      .ok { st with accounts :=
        (st.accounts.map (fun a => if a.id == 1 then { a with name := pyStrip name } else a)) } := by
    cases hf : st.accounts.find? (fun a => a.id == 1) with
    | none => rw [hf] at hsome; simp at hsome
    | some b => simp [rename_account, hname, hf, hany]
  refine ⟨?_, hmain, ?_⟩
  · intro st2 aid2 n2 h
    unfold rename_account at h
    by_cases h1 : pyStrip n2 = ""
    · simp [h1] at h
    · by_cases h2 : (st2.accounts.find? (fun a => a.id == aid2)).isNone
      · simp [h1, h2] at h
      · by_cases h3 : (st2.accounts.any fun a => a.id != aid2 && a.name == pyStrip n2) = true
        · simp [h1, h2, h3] at h
        · simp [h1, h2, h3] at h
  · intro st' h
    rw [hmain] at h
    injection h with h
    subst h
    constructor
    · intro a ha hida
      rcases List.mem_map.mp ha with ⟨b, hb, hfb⟩
      by_cases hb1 : b.id = 1
      · rw [← hfb]; simp [hb1]
      · rw [← hfb] at hida
        simp only [beq_iff_eq, hb1, if_neg hb1] at hida
        exact absurd hida hb1
    · refine ⟨{ a0 with name := pyStrip name }, ?_, hid0⟩
      have : ({ a0 with name := pyStrip name } : Account) =
          (fun a => if a.id == 1 then { a with name := pyStrip name } else a) a0 := by
        simp [hid0]
      rw [this]
      exact List.mem_map_of_mem _ ha0

/-- Witness for C10: renaming the default account of the initial state to
`Home` succeeds. -/
theorem c10_witness :
    rename_account initState 1 "Home" =
      .ok { initState with accounts :=
        (initState.accounts.map
          (fun a => if a.id == 1 then { a with name := pyStrip "Home" } else a)) } :=
  (c10_rename_account_allows_default initState "Home" (by decide) (by decide) (by decide)).2.1

/-! ## Claim C8 — `list_txns` range filter and ordering -/

/-- Account 1 with two transactions on the same day, ids 1 then 2. -/
def sameDayState : DBState :=
  ⟨[⟨1, "Default", false⟩],
   [⟨1, 1, "2026-04-10", "expense", 100, "food", "first"⟩,
    ⟨2, 1, "2026-04-10", "expense", 200, "food", "second"⟩],
   2, 3⟩

/-- C8: `list_txns` returns exactly the transactions of the account whose
date lies between `start` and `end` inclusive (as a permutation of that
filter, and element-wise), ordered by date descending then id
descending; on the same-day example the newest-inserted row comes
first. -/
theorem c8_list_txns_range_and_order (st : DBState) (account_id : Nat) (startD stopD : String) :
    List.Perm (list_txns st account_id startD stopD)
      (st.txns.filter (txnMatches account_id startD stopD)) ∧
    (∀ t, t ∈ list_txns st account_id startD stopD ↔
      (t ∈ st.txns ∧ t.account_id = account_id ∧
        strLe startD t.date = true ∧ strLe t.date stopD = true)) ∧
    List.Pairwise (fun a b => charListLe b.date.data a.date.data = true ∧
      (a.date = b.date → b.id ≤ a.id)) (list_txns st account_id startD stopD) ∧
    list_txns sameDayState 1 "2026-04-01" "2026-04-30" =
      [⟨2, 1, "2026-04-10", "expense", 200, "food", "second"⟩,
       ⟨1, 1, "2026-04-10", "expense", 100, "food", "first"⟩] := by
  refine ⟨List.perm_insertionSort _ _, ?_, ?_, by decide⟩
  · intro t
    simp [list_txns, List.mem_insertionSort, List.mem_filter, txnMatches, and_assoc]
  · have hs : List.Sorted txnOrd (list_txns st account_id startD stopD) :=
      List.sorted_insertionSort txnOrd _
    refine List.Pairwise.imp ?_ hs
    intro a b hab
    refine ⟨hab.1, fun hd => hab.2 ?_⟩
    rw [hd]
    exact charListLe_refl _

/-! ## Claim C2 — `get_summary` totals, grouping and ordering -/

theorem sumAmounts_filter2 (p q : Txn → Bool) (l : List Txn) :
    sumAmounts ((l.filter p).filter q) =
      (l.map (fun t => if p t && q t then t.amount_cents else 0)).sum := by
  induction l with
  | nil => rfl
  | cons t l ih =>
    by_cases hp : p t
    · by_cases hq : q t
      · simp [List.filter_cons, hp, hq, sumAmounts, List.map_cons] at ih ⊢
        omega
      · simp [List.filter_cons, hp, hq, sumAmounts] at ih ⊢
        exact ih
    · simp [List.filter_cons, hp, sumAmounts] at ih ⊢
      exact ih

theorem sumAmounts_filter3 (p q r : Txn → Bool) (l : List Txn) :
    sumAmounts (((l.filter p).filter q).filter r) =
      (l.map (fun t => if p t && q t && r t then t.amount_cents else 0)).sum := by
  induction l with
  | nil => rfl
  | cons t l ih =>
    by_cases hp : p t
    · by_cases hq : q t
      · by_cases hr : r t
        · simp [List.filter_cons, hp, hq, hr, sumAmounts, List.map_cons] at ih ⊢
          omega
        · simp [List.filter_cons, hp, hq, hr, sumAmounts] at ih ⊢
          exact ih
      · simp [List.filter_cons, hp, hq, sumAmounts] at ih ⊢
        exact ih
    · simp [List.filter_cons, hp, sumAmounts] at ih ⊢
      exact ih

/-- C2: `get_summary` computes `income_cents`/`expense_cents` as the sums of
the matching rows of each direction (0 if none), and `by_category` holds
exactly the matching expense rows grouped by category with summed
amounts, ordered by summed amount descending then category ascending;
the spec's worked example evaluates as stated. -/
theorem c2_get_summary_totals_and_groups (st : DBState) (account_id : Nat) (startD stopD : String) :
    (get_summary st account_id startD stopD).income_cents =
      (st.txns.map (fun t =>
        if txnMatches account_id startD stopD t && t.direction == "income"
        then t.amount_cents else 0)).sum ∧
    (get_summary st account_id startD stopD).expense_cents =
      (st.txns.map (fun t =>
        if txnMatches account_id startD stopD t && t.direction == "expense"
        then t.amount_cents else 0)).sum ∧
    (∀ g ∈ (get_summary st account_id startD stopD).by_category,
      g.amount_cents = (st.txns.map (fun t =>
        if txnMatches account_id startD stopD t && t.direction == "expense" &&
            t.category == g.category
        then t.amount_cents else 0)).sum ∧
      ∃ t ∈ st.txns, txnMatches account_id startD stopD t = true ∧
        t.direction = "expense" ∧ t.category = g.category) ∧
    (∀ t ∈ st.txns, txnMatches account_id startD stopD t = true → t.direction = "expense" →
      ∃ g ∈ (get_summary st account_id startD stopD).by_category, g.category = t.category) ∧
    List.Pairwise (fun a b => b.amount_cents < a.amount_cents ∨
      (a.amount_cents = b.amount_cents ∧ charListLe a.category.data b.category.data = true))
      (get_summary st account_id startD stopD).by_category ∧
    get_summary summaryExampleState 1 "2026-02-01" "2026-02-28" =
      ⟨500000, 32000, [⟨"rent", 30000⟩, ⟨"food", 2000⟩]⟩ := by
  refine ⟨?_, ?_, ?_, ?_, ?_, by decide⟩
  · simp only [get_summary]
    exact sumAmounts_filter2 _ _ _
  · simp only [get_summary]
    exact sumAmounts_filter2 _ _ _
  · intro g hg
    simp only [get_summary, List.mem_insertionSort] at hg
    rcases List.mem_map.mp hg with ⟨cname, hcname, hgeq⟩
    have hcat : g.category = cname := by rw [← hgeq]
    constructor
    · rw [← hgeq]
      simp only [hcat]
      exact sumAmounts_filter3 _ _ _ _
    · have hmem : cname ∈ ((st.txns.filter (txnMatches account_id startD stopD)).filter
          (fun t => t.direction == "expense")).map Txn.category := List.mem_dedup.mp hcname
      rcases List.mem_map.mp hmem with ⟨t, ht, htc⟩
      rcases List.mem_filter.mp ht with ⟨ht2, htdir⟩
      rcases List.mem_filter.mp ht2 with ⟨ht3, htm⟩
      exact ⟨t, ht3, htm, by simpa using htdir, by rw [htc, hcat]⟩
  · intro t ht htm htdir
    have hexp : t ∈ (st.txns.filter (txnMatches account_id startD stopD)).filter
        (fun t => t.direction == "expense") :=
      List.mem_filter.mpr ⟨List.mem_filter.mpr ⟨ht, htm⟩, by simp [htdir]⟩
    have hcat : t.category ∈ (((st.txns.filter (txnMatches account_id startD stopD)).filter
        (fun t => t.direction == "expense")).map Txn.category).dedup :=
      List.mem_dedup.mpr (List.mem_map_of_mem Txn.category hexp)
    refine ⟨⟨t.category, sumAmounts (((st.txns.filter (txnMatches account_id startD stopD)).filter
        (fun t => t.direction == "expense")).filter (fun u => u.category == t.category))⟩, ?_, rfl⟩
    simp only [get_summary, List.mem_insertionSort]
    exact List.mem_map_of_mem _ hcat
  · have hs : List.Sorted catOrd (get_summary st account_id startD stopD).by_category := by
      simp only [get_summary]
      exact List.sorted_insertionSort catOrd _
    refine List.Pairwise.imp ?_ hs
    intro a b hab
    rcases Nat.eq_or_lt_of_le hab.1 with heq | hlt
    · exact Or.inr ⟨heq.symm, hab.2 (Nat.le_of_eq heq.symm)⟩
    · exact Or.inl hlt

/-! ## Claim C5 — the default account (id 1) invariant -/

theorem create_account_ok {st : DBState} {n : String} {id : Nat} {st' : DBState}
    (h : create_account st n = .ok (id, st')) :
    st'.accounts = st.accounts ++ [⟨st.nextAccountId, pyStrip n, false⟩] := by
  unfold create_account at h
  by_cases h1 : pyStrip n = ""
  · simp [h1] at h
  · by_cases h2 : (st.accounts.any (fun a => a.name == pyStrip n)) = true
    · simp [h1, h2] at h
    · simp [h1, h2] at h
      rw [← h.2]

theorem rename_account_ok {st : DBState} {aid : Nat} {n : String} {st' : DBState}
    (h : rename_account st aid n = .ok st') :
    st'.accounts = st.accounts.map
      (fun a => if a.id == aid then { a with name := pyStrip n } else a) := by
  unfold rename_account at h
  by_cases h1 : pyStrip n = ""
  · simp [h1] at h
  · by_cases h2 : (st.accounts.find? (fun a => a.id == aid)).isNone
    · simp [h1, h2] at h
    · by_cases h3 : (st.accounts.any (fun a => a.id != aid && a.name == pyStrip n)) = true
      · simp [h1, h2, h3] at h
      · simp [h1, h2, h3] at h
        rw [← h]
        simp

theorem delete_account_ok {st : DBState} {aid : Nat} {st' : DBState}
    (h : delete_account st aid = .ok st') :
    aid ≠ 1 ∧ st'.accounts = st.accounts.filter (fun a => a.id != aid) := by
  unfold delete_account at h
  by_cases h1 : aid = 1
  · simp [h1] at h
  · refine ⟨h1, ?_⟩
    by_cases h2 : (st.accounts.find? (fun a => a.id == aid)).isNone
    · simp [h1, h2] at h
    · by_cases h3 : 0 < (st.txns.filter (fun t => t.account_id == aid)).length
      · simp [h1, h2, h3] at h
      · simp [h1, h2, h3] at h
        rw [← h]

theorem archive_account_ok {st : DBState} {aid : Nat} {st' : DBState}
    (h : archive_account st aid = .ok st') :
    aid ≠ 1 ∧ st'.accounts = st.accounts.map
      (fun b => if b.id == aid then { b with archived := true } else b) := by
  unfold archive_account at h
  by_cases h1 : aid = 1
  · simp [h1] at h
  · refine ⟨h1, ?_⟩
    cases hf : st.accounts.find? (fun a => a.id == aid) with
    | none => simp [h1, hf] at h
    | some b =>
      by_cases h2 : b.archived
      · simp [h1, hf, h2] at h
      · simp [h1, hf, h2] at h
        rw [← h]
        simp

theorem restore_account_ok {st : DBState} {aid : Nat} {st' : DBState}
    (h : restore_account st aid = .ok st') :
    st'.accounts = st.accounts.map
      (fun b => if b.id == aid then { b with archived := false } else b) := by
  unfold restore_account at h
  cases hf : st.accounts.find? (fun a => a.id == aid) with
  | none => simp [hf] at h
  | some b =>
    by_cases h2 : b.archived
    · simp [hf, h2] at h
      rw [← h]
      simp
    · simp [hf, h2] at h

theorem create_txn_ok {st : DBState} {aid : Nat} {d dir : String} {amt : Nat}
    {cat nt : String} {id : Nat} {st' : DBState}
    (h : create_txn st aid d dir amt cat nt = .ok (id, st')) :
    st'.accounts = st.accounts := by
  unfold create_txn at h
  by_cases h1 : (st.accounts.find? (fun a => a.id == aid)).isNone
  · simp [h1] at h
  · by_cases h2 : (dir == "income" || dir == "expense") = true
    · simp [h1, h2] at h
      rw [← h.2]
    · simp [h1, h2] at h

/-- Database states reachable from schema initialization through
repository write operations. -/
inductive Reachable : DBState → Prop where
  | init : Reachable initState
  | createAccount {st : DBState} {n : String} {id : Nat} {st' : DBState} :
      Reachable st → create_account st n = .ok (id, st') → Reachable st'
  | renameAccount {st : DBState} {aid : Nat} {n : String} {st' : DBState} :
      Reachable st → rename_account st aid n = .ok st' → Reachable st'
  | deleteAccount {st : DBState} {aid : Nat} {st' : DBState} :
      Reachable st → delete_account st aid = .ok st' → Reachable st'
  | archiveAccount {st : DBState} {aid : Nat} {st' : DBState} :
      Reachable st → archive_account st aid = .ok st' → Reachable st'
  | restoreAccount {st : DBState} {aid : Nat} {st' : DBState} :
      Reachable st → restore_account st aid = .ok st' → Reachable st'
  | createTxn {st : DBState} {aid : Nat} {d dir : String} {amt : Nat} {cat nt : String}
      {id : Nat} {st' : DBState} :
      Reachable st → create_txn st aid d dir amt cat nt = .ok (id, st') → Reachable st'
  | deleteTxn {st : DBState} (tid aid : Nat) :
      Reachable st → Reachable (delete_txn st tid aid)

/-- The default account exists, and every row with id 1 is unarchived. -/
def defaultIntact (st : DBState) : Prop :=
  (∃ a ∈ st.accounts, a.id = 1) ∧ (∀ a ∈ st.accounts, a.id = 1 → a.archived = false)

theorem reachable_defaultIntact {st : DBState} (h : Reachable st) : defaultIntact st := by
  induction h with
  | init =>
    refine ⟨⟨⟨1, "Default", false⟩, by simp [initState], rfl⟩, ?_⟩
    intro a ha h1
    simp only [initState] at ha
    rcases List.mem_singleton.mp ha with rfl
    rfl
  | @createAccount st0 n id st' hr hok ih =>
    obtain ⟨⟨a0, ha0, hid0⟩, hall⟩ := ih
    rw [defaultIntact, create_account_ok hok]
    constructor
    · exact ⟨a0, List.mem_append_left _ ha0, hid0⟩
    · intro a ha h1
      rcases List.mem_append.mp ha with ha' | ha'
      · exact hall a ha' h1
      · rcases List.mem_singleton.mp ha' with rfl
        rfl
  | @renameAccount st0 aid n st' hr hok ih =>
    obtain ⟨⟨a0, ha0, hid0⟩, hall⟩ := ih
    rw [defaultIntact, rename_account_ok hok]
    constructor
    · refine ⟨_, List.mem_map_of_mem _ ha0, ?_⟩
      by_cases hb : (a0.id == aid) = true
      · rw [if_pos hb]
        exact hid0
      · rw [if_neg hb]
        exact hid0
    · intro a ha h1
      rcases List.mem_map.mp ha with ⟨b, hb, rfl⟩
      by_cases hbid : (b.id == aid) = true
      · rw [if_pos hbid] at h1 ⊢
        exact hall b hb h1
      · rw [if_neg hbid] at h1 ⊢
        exact hall b hb h1
  | @deleteAccount st0 aid st' hr hok ih =>
    obtain ⟨⟨a0, ha0, hid0⟩, hall⟩ := ih
    obtain ⟨hne, hacc⟩ := delete_account_ok hok
    rw [defaultIntact, hacc]
    constructor
    · refine ⟨a0, List.mem_filter.mpr ⟨ha0, ?_⟩, hid0⟩
      simp [hid0]
      omega
    · intro a ha h1
      exact hall a (List.mem_filter.mp ha).1 h1
  | @archiveAccount st0 aid st' hr hok ih =>
    obtain ⟨⟨a0, ha0, hid0⟩, hall⟩ := ih
    obtain ⟨hne, hacc⟩ := archive_account_ok hok
    rw [defaultIntact, hacc]
    constructor
    · refine ⟨_, List.mem_map_of_mem _ ha0, ?_⟩
      by_cases hb : (a0.id == aid) = true
      · rw [if_pos hb]
        exact hid0
      · rw [if_neg hb]
        exact hid0
    · intro a ha h1
      rcases List.mem_map.mp ha with ⟨b, hb, rfl⟩
      by_cases hbid : (b.id == aid) = true
      · rw [if_pos hbid] at h1
        simp only [beq_iff_eq] at hbid
        simp only at h1
        omega
      · rw [if_neg hbid] at h1 ⊢
        exact hall b hb h1
  | @restoreAccount st0 aid st' hr hok ih =>
    obtain ⟨⟨a0, ha0, hid0⟩, hall⟩ := ih
    rw [defaultIntact, restore_account_ok hok]
    constructor
    · refine ⟨_, List.mem_map_of_mem _ ha0, ?_⟩
      by_cases hb : (a0.id == aid) = true
      · rw [if_pos hb]
        exact hid0
      · rw [if_neg hb]
        exact hid0
    · intro a ha h1
      rcases List.mem_map.mp ha with ⟨b, hb, rfl⟩
      by_cases hbid : (b.id == aid) = true
      · rw [if_pos hbid]
      · rw [if_neg hbid] at h1 ⊢
        exact hall b hb h1
  | @createTxn st0 aid d dir amt cat nt id st' hr hok ih =>
    obtain ⟨⟨a0, ha0, hid0⟩, hall⟩ := ih
    rw [defaultIntact, create_txn_ok hok]
    exact ⟨⟨a0, ha0, hid0⟩, hall⟩
  | deleteTxn tid aid hr ih =>
    exact ih

/-- C5: in every reachable state, account 1 exists and is unarchived, and
the repository refuses to archive it, to delete it, or to restore it
(the latter failing with `NotArchived` since it is never archived). -/
theorem c5_default_account_protected (st : DBState) (h : Reachable st) :
    (∃ a ∈ st.accounts, a.id = 1 ∧ a.archived = false) ∧
    archive_account st 1 = .error .protectedErr ∧
    delete_account st 1 = .error .protectedErr ∧
    restore_account st 1 = .error .notArchived := by
  obtain ⟨⟨a0, ha0, hid0⟩, hall⟩ := reachable_defaultIntact h
  refine ⟨⟨a0, ha0, hid0, hall a0 ha0 hid0⟩, by simp [archive_account],
    by simp [delete_account], ?_⟩
  have hsome : (st.accounts.find? (fun a => a.id == 1)).isSome :=
    List.find?_isSome.mpr ⟨a0, ha0, by simp [hid0]⟩
  cases hf : st.accounts.find? (fun a => a.id == 1) with
  | none => rw [hf] at hsome; simp at hsome
  | some b =>
    have hb1 : b.id = 1 := by simpa using List.find?_some hf
    have hbm : b ∈ st.accounts := List.mem_of_find?_eq_some hf
    have hbarch : b.archived = false := hall b hbm hb1
    simp [restore_account, hf, hbarch]

/-- Witness for C5 at the initial (post-`init_db`) state. -/
theorem c5_witness :
    (∃ a ∈ initState.accounts, a.id = 1 ∧ a.archived = false) ∧
    archive_account initState 1 = .error .protectedErr ∧
    delete_account initState 1 = .error .protectedErr ∧
    restore_account initState 1 = .error .notArchived :=
  c5_default_account_protected initState Reachable.init

/-! ## Claim C3 — amended classification of `parse_amount_to_cents` -/

/-- Spec-side meaning of "the value times 100 is exactly integral": the
integer `c × 10^(e+2)` when it exists (at most 2 fractional digits),
`none` otherwise. -/
def exactCents (c : Nat) (e : Int) : Option Nat :=
  if 0 ≤ e + 2 then some (c * 10 ^ (e + 2).toNat)
  else if 10 ^ (-(e + 2)).toNat ∣ c then some (c / 10 ^ (-(e + 2)).toNat)
  else none

theorem decParse_none_of_trim_empty {s : String} (h : trimChars s.data = []) :
    decParse s = none := by
  simp [decParse, h, stripUnderscores, decParseChars]

theorem trim_nonempty_of_decParse_some {s : String} {v : DecValue}
    (h : decParse s = some v) : (trimChars s.data).isEmpty = false := by
  rcases he : trimChars s.data with _ | ⟨c, cs⟩
  · rw [decParse_none_of_trim_empty he] at h
    cases h
  · rfl

/-- Core evaluation of `parse_amount_to_cents` on a finite, non-negative
parse whose scaled coefficient fits the default 28-digit precision. -/
theorem parse_finite_in_precision {s : String} {sg : Bool} {c : Nat} {e : Int}
    (hp : decParse s = some (.finite sg c e)) (hsg : sg = false ∨ c = 0)
    (hprec : numDigits (c * 100) + e.toNat ≤ 28) :
    (∀ n, exactCents c e = some n → parse_amount_to_cents s = .ok n) ∧
    (exactCents c e = none →
      parse_amount_to_cents s = .valueError "amount supports up to 2 decimals") := by
  have htrim : (trimChars s.data).isEmpty = false := trim_nonempty_of_decParse_some hp
  have hA : numDigits (c * 100) ≤ 28 := by omega
  have hsgc : (sg && c != 0) = false := by
    rcases hsg with rfl | rfl <;> simp
  have hstep : parse_amount_to_cents s =
      (match quantizeHalfUpToInt (c * 100) e with
       | none => AmountResult.invalidOperation
       | some cents =>
         if valEqInt (c * 100) e cents then .ok cents
         else .valueError "amount supports up to 2 decimals") := by
    simp only [parse_amount_to_cents, htrim, Bool.false_eq_true, if_false, hp, hsgc,
      times100, hA, if_pos, if_true]
  by_cases he : 0 ≤ e
  · -- nonnegative exponent: the scaled value is the integer c*100*10^e
    have hq : quantizeHalfUpToInt (c * 100) e = some (c * 100 * 10 ^ e.toNat) := by
      have hd : numDigits (c * 100 * 10 ^ e.toNat) ≤ 28 :=
        Nat.le_trans (numDigits_mul_pow_le (c * 100) e.toNat) hprec
      simp [quantizeHalfUpToInt, he, hd]
    have hv : valEqInt (c * 100) e (c * 100 * 10 ^ e.toNat) = true := by
      simp [valEqInt, he]
    have hres : parse_amount_to_cents s = .ok (c * 100 * 10 ^ e.toNat) := by
      rw [hstep, hq]
      simp [hv]
    have hec : exactCents c e = some (c * 100 * 10 ^ e.toNat) := by
      have h2 : (0:Int) ≤ e + 2 := by omega
      have h3 : (e + 2).toNat = e.toNat + 2 := by omega
      have h4 : c * 10 ^ (e + 2).toNat = c * 100 * 10 ^ e.toNat := by
        rw [h3, pow_add]
        ring_nf
      simp [exactCents, h2, h4]
    constructor
    · intro n hn
      rw [hec] at hn
      injection hn with hn
      rw [hres, hn]
    · intro hn
      rw [hec] at hn
      cases hn
  · -- negative exponent: divide by 10^(-e), rounding half-up
    have hkpos : 0 < (10:Nat) ^ (-e).toNat := pow_pos (by norm_num) _
    have hq : quantizeHalfUpToInt (c * 100) e =
        some (halfUpDiv (c * 100) (10 ^ (-e).toNat)) := by
      have hle : halfUpDiv (c * 100) (10 ^ (-e).toNat) ≤ c * 100 :=
        halfUpDiv_le _ _ (by omega)
      have hd : numDigits (halfUpDiv (c * 100) (10 ^ (-e).toNat)) ≤ 28 :=
        Nat.le_trans (numDigits_mono hle) hA
      simp [quantizeHalfUpToInt, he, hd]
    by_cases hdvd : (10:Nat) ^ (-e).toNat ∣ c * 100
    · -- exactly integral: the division is exact and the equality test passes
      have hn : halfUpDiv (c * 100) (10 ^ (-e).toNat) = c * 100 / 10 ^ (-e).toNat :=
        halfUpDiv_exact hkpos hdvd
      have hv : valEqInt (c * 100) e (halfUpDiv (c * 100) (10 ^ (-e).toNat)) = true := by
        simp only [valEqInt, if_neg he]
        rw [hn, Nat.div_mul_cancel hdvd]
        simp
      have hres : parse_amount_to_cents s = .ok (c * 100 / 10 ^ (-e).toNat) := by
        rw [hstep, hq, hn]
        have hv' : valEqInt (c * 100) e (c * 100 / 10 ^ (-e).toNat) = true := by
          rw [← hn]
          exact hv
        simp [hv']
      have hec : exactCents c e = some (c * 100 / 10 ^ (-e).toNat) := by
        by_cases h2 : (0:Int) ≤ e + 2
        · -- e is -1 or -2: always integral
          have h3 : (e + 2).toNat = 2 - (-e).toNat := by omega
          have h4 : c * 100 = c * 10 ^ (2 - (-e).toNat) * 10 ^ (-e).toNat := by
            rw [Nat.mul_assoc, ← pow_add]
            have h5 : 2 - (-e).toNat + (-e).toNat = 2 := by omega
            rw [h5]
            norm_num
          rw [exactCents, if_pos h2, h3]
          rw [show c * 100 / 10 ^ (-e).toNat =
              c * 10 ^ (2 - (-e).toNat) * 10 ^ (-e).toNat / 10 ^ (-e).toNat from by rw [← h4]]
          rw [Nat.mul_div_cancel _ hkpos]
        · -- e < -2: divisibility transfers across the factor 100
          have h3 : (-(e + 2)).toNat = (-e).toNat - 2 := by omega
          have hp2 : 0 < (10:Nat) ^ ((-e).toNat - 2) := pow_pos (by norm_num) _
          have h5 : (10:Nat) ^ (-e).toNat = 10 ^ ((-e).toNat - 2) * 100 := by
            have h6 : (-e).toNat - 2 + 2 = (-e).toNat := by omega
            calc (10:Nat) ^ (-e).toNat = 10 ^ ((-e).toNat - 2 + 2) := by rw [h6]
              _ = 10 ^ ((-e).toNat - 2) * 10 ^ 2 := pow_add 10 _ 2
              _ = 10 ^ ((-e).toNat - 2) * 100 := by norm_num
          have hdvd' : (10:Nat) ^ ((-e).toNat - 2) ∣ c := by
            rw [h5] at hdvd
            exact (Nat.mul_dvd_mul_iff_right (by norm_num : (0:Nat) < 100)).mp hdvd
          have hval : c * 100 / 10 ^ (-e).toNat = c / 10 ^ ((-e).toNat - 2) := by
            obtain ⟨q, rfl⟩ := hdvd'
            rw [h5]
            rw [show 10 ^ ((-e).toNat - 2) * q * 100 = 10 ^ ((-e).toNat - 2) * 100 * q from by ring]
            rw [Nat.mul_div_cancel_left q (Nat.mul_pos hp2 (by norm_num))]
            rw [Nat.mul_div_cancel_left q hp2]
          rw [exactCents, if_neg h2, h3, if_pos hdvd', hval]
      constructor
      · intro n hnx
        rw [hec] at hnx
        injection hnx with hnx
        rw [hres, hnx]
      · intro hnx
        rw [hec] at hnx
        cases hnx
    · -- not integral: the equality test fails and the typed error is raised
      have hvf : valEqInt (c * 100) e (halfUpDiv (c * 100) (10 ^ (-e).toNat)) = false := by
        simp only [valEqInt, if_neg he]
        rw [beq_eq_false_iff_ne]
        intro hEq
        exact hdvd ⟨halfUpDiv (c * 100) (10 ^ (-e).toNat), hEq.trans (Nat.mul_comm _ _)⟩
      have hres : parse_amount_to_cents s =
          .valueError "amount supports up to 2 decimals" := by
        rw [hstep, hq]
        simp [hvf]
      have hec : exactCents c e = none := by
        have h2 : ¬ (0:Int) ≤ e + 2 := by
          intro h2
          apply hdvd
          have h4 : c * 100 = c * 10 ^ (2 - (-e).toNat) * 10 ^ (-e).toNat := by
            rw [Nat.mul_assoc, ← pow_add]
            have h5 : 2 - (-e).toNat + (-e).toNat = 2 := by omega
            rw [h5]
            norm_num
          exact ⟨c * 10 ^ (2 - (-e).toNat), by rw [h4]; ring⟩
        have h3 : (-(e + 2)).toNat = (-e).toNat - 2 := by omega
        have hnd : ¬ (10:Nat) ^ ((-e).toNat - 2) ∣ c := by
          intro hd
          apply hdvd
          have h6 : (-e).toNat - 2 + 2 = (-e).toNat := by omega
          obtain ⟨q, rfl⟩ := hd
          refine ⟨q, ?_⟩
          calc 10 ^ ((-e).toNat - 2) * q * 100
              = 10 ^ ((-e).toNat - 2) * 100 * q := by ring
            _ = 10 ^ ((-e).toNat - 2) * 10 ^ 2 * q := by norm_num
            _ = 10 ^ ((-e).toNat - 2 + 2) * q := by rw [pow_add]
            _ = 10 ^ (-e).toNat * q := by rw [h6]
        rw [exactCents, if_neg h2, h3, if_neg hnd]
      constructor
      · intro n hnx
        rw [hec] at hnx
        cases hnx
      · intro _
        exact hres

/-- C3 (amended): for every string, `parse_amount_to_cents` fails with the
typed `ValueError` exactly when the input is empty/whitespace-only, not
parseable as a decimal, negative, or its value times 100 is not exactly
integral — restricted, for the finite-value cases, to parses whose
scaled coefficient stays within the default context's 28-digit
precision (inputs parsing to NaN or +Infinity, and wider finite inputs,
instead escape with an uncaught `decimal.InvalidOperation`, see the
counterexample); the spec's worked examples hold. -/
theorem c3_amended_parse_amount_classification (s : String) :
    ((trimChars s.data).isEmpty = true →
      parse_amount_to_cents s = .valueError "amount required") ∧
    ((trimChars s.data).isEmpty = false → decParse s = none →
      parse_amount_to_cents s = .valueError "amount invalid") ∧
    (∀ c e, decParse s = some (.finite true c e) → c ≠ 0 →
      parse_amount_to_cents s = .valueError "amount must be non-negative") ∧
    (∀ sg c e, decParse s = some (.finite sg c e) → (sg = false ∨ c = 0) →
      numDigits (c * 100) + e.toNat ≤ 28 →
      ((∀ n, exactCents c e = some n → parse_amount_to_cents s = .ok n) ∧
       (exactCents c e = none →
         parse_amount_to_cents s = .valueError "amount supports up to 2 decimals"))) ∧
    (parse_amount_to_cents "0.01" = .ok 1 ∧
     parse_amount_to_cents "1" = .ok 100 ∧
     parse_amount_to_cents "10.05" = .ok 1005 ∧
     parse_amount_to_cents "1.234" = .valueError "amount supports up to 2 decimals" ∧
     parse_amount_to_cents "-1" = .valueError "amount must be non-negative" ∧
     parse_amount_to_cents "abc" = .valueError "amount invalid" ∧
     parse_amount_to_cents "" = .valueError "amount required") := by
  refine ⟨?_, ?_, ?_, ?_, by decide⟩
  · intro h
    simp [parse_amount_to_cents, h]
  · intro h1 h2
    simp [parse_amount_to_cents, h1, h2]
  · intro c e hp hc
    have htrim := trim_nonempty_of_decParse_some hp
    have hc' : (c != 0) = true := by simpa using hc
    simp [parse_amount_to_cents, htrim, hp, hc']
  · intro sg c e hp hsg hprec
    exact parse_finite_in_precision hp hsg hprec

/-- Witness for the amended C3 at the concrete input `"10.05"`. -/
theorem c3_amended_witness : parse_amount_to_cents "10.05" = .ok 1005 :=
  ((c3_amended_parse_amount_classification "10.05").2.2.2.1 false 1005 (-2)
    (by decide) (Or.inl rfl) (by decide)).1 1005 (by decide)

/-! ## Claim C4 — amended round-trip for well-formed amount strings -/

/-- The ASCII digit character for `d < 10`. -/
def digitChar (d : Nat) : Char := Char.ofNat (48 + d)

/-- The canonical decimal numeral `ip[.fp]` (no point when `fp` is empty). -/
def renderAmount (ip fp : List Nat) : String :=
  ⟨ip.map digitChar ++ (if fp.isEmpty then [] else '.' :: fp.map digitChar)⟩

theorem digitChar_spec {d : Nat} (hd : d < 10) :
    isAsciiDigit (digitChar d) = true ∧
    digVal (digitChar d) = d ∧
    isPySpace (digitChar d) = false ∧
    (digitChar d != '_') = true ∧
    digitChar d ≠ '-' ∧
    digitChar d ≠ '+' ∧
    Char.toLower (digitChar d) = digitChar d ∧
    ('i' == digitChar d) = false ∧
    ('n' == digitChar d) = false ∧
    ('s' == digitChar d) = false ∧
    digitChar d ≠ 'i' := by
  interval_cases d <;> decide

theorem dropWhile_all_false {p : Char → Bool} {l : List Char}
    (h : ∀ c ∈ l, p c = false) : l.dropWhile p = l := by
  cases l with
  | nil => rfl
  | cons a l =>
    rw [List.dropWhile_cons, if_neg]
    simp [h a (List.mem_cons_self a l)]

theorem trimChars_id {l : List Char} (h : ∀ c ∈ l, isPySpace c = false) :
    trimChars l = l := by
  unfold trimChars
  rw [dropWhile_all_false h,
    dropWhile_all_false (fun c hc => h c (List.mem_reverse.mp hc)),
    List.reverse_reverse]

theorem stripUnderscores_id {l : List Char} (h : ∀ c ∈ l, (c != '_') = true) :
    stripUnderscores l = l :=
  List.filter_eq_self.mpr h

theorem takeDigits_append (ds : List Nat) (rest : List Char)
    (h1 : ∀ d ∈ ds, d < 10)
    (h2 : ∀ c cs2, rest = c :: cs2 → isAsciiDigit c = false) :
    takeDigits (ds.map digitChar ++ rest) = (ds, rest) := by
  induction ds with
  | nil =>
    simp only [List.map_nil, List.nil_append]
    cases rest with
    | nil => rfl
    | cons c cs2 =>
      rw [takeDigits, if_neg]
      simp [h2 c cs2 rfl]
  | cons d ds ih =>
    have hd := digitChar_spec (h1 d (List.mem_cons_self d ds))
    simp only [List.map_cons, List.cons_append]
    rw [takeDigits, if_pos hd.1]
    simp only [ih (fun x hx => h1 x (List.mem_cons_of_mem d hx)), hd.2.1]

theorem foldl_digits_lt (ds : List Nat) (acc : Nat) (h : ∀ d ∈ ds, d < 10) :
    List.foldl (fun a d => a * 10 + d) acc ds < (acc + 1) * 10 ^ ds.length := by
  induction ds generalizing acc with
  | nil => simp
  | cons d ds ih =>
    simp only [List.foldl_cons, List.length_cons]
    have hd : d < 10 := h d (List.mem_cons_self d ds)
    have hrec := ih (acc * 10 + d) (fun x hx => h x (List.mem_cons_of_mem d hx))
    have hle : (acc * 10 + d + 1) * 10 ^ ds.length ≤ ((acc + 1) * 10) * 10 ^ ds.length :=
      Nat.mul_le_mul_right _ (by omega)
    calc List.foldl (fun a d => a * 10 + d) (acc * 10 + d) ds
        < (acc * 10 + d + 1) * 10 ^ ds.length := hrec
      _ ≤ ((acc + 1) * 10) * 10 ^ ds.length := hle
      _ = (acc + 1) * 10 ^ (ds.length + 1) := by ring

theorem natOfDigitList_lt (ds : List Nat) (h : ∀ d ∈ ds, d < 10) :
    natOfDigitList ds < 10 ^ ds.length := by
  have hfold := foldl_digits_lt ds 0 h
  simpa [natOfDigitList] using hfold

/-- The parser accepts the canonical numeral and yields its digits as the
coefficient with the fraction length as negative exponent. -/
theorem decParse_renderAmount (ip fp : List Nat) (hip : ip ≠ [])
    (hd1 : ∀ d ∈ ip, d < 10) (hd2 : ∀ d ∈ fp, d < 10) :
    decParse (renderAmount ip fp) =
      some (.finite false (natOfDigitList (ip ++ fp)) (-(fp.length : Int))) := by
  obtain ⟨d0, ip', rfl⟩ : ∃ d0 ip', ip = d0 :: ip' := by
    cases ip with
    | nil => exact absurd rfl hip
    | cons a b => exact ⟨a, b, rfl⟩
  have hd0 := digitChar_spec (hd1 d0 (List.mem_cons_self d0 ip'))
  set tail : List Char := if fp.isEmpty then [] else '.' :: fp.map digitChar with htail
  have hdata : (renderAmount (d0 :: ip') fp).data = (d0 :: ip').map digitChar ++ tail := rfl
  have hallchars : ∀ c ∈ (d0 :: ip').map digitChar ++ tail,
      isPySpace c = false ∧ (c != '_') = true := by
    intro c hc
    rcases List.mem_append.mp hc with hc1 | hc1
    · rcases List.mem_map.mp hc1 with ⟨d, hdm, rfl⟩
      have := digitChar_spec (hd1 d hdm)
      exact ⟨this.2.2.1, this.2.2.2.1⟩
    · rw [htail] at hc1
      by_cases hfe : fp.isEmpty
      · rw [if_pos hfe] at hc1
        cases hc1
      · rw [if_neg hfe] at hc1
        rcases List.mem_cons.mp hc1 with rfl | hc2
        · exact ⟨rfl, rfl⟩
        · rcases List.mem_map.mp hc2 with ⟨d, hdm, rfl⟩
          have := digitChar_spec (hd2 d hdm)
          exact ⟨this.2.2.1, this.2.2.2.1⟩
  have htrimmed : trimChars ((renderAmount (d0 :: ip') fp).data) =
      (d0 :: ip').map digitChar ++ tail := by
    rw [hdata]
    exact trimChars_id (fun c hc => (hallchars c hc).1)
  have hstripped : stripUnderscores ((d0 :: ip').map digitChar ++ tail) =
      (d0 :: ip').map digitChar ++ tail :=
    stripUnderscores_id (fun c hc => (hallchars c hc).2)
  have hcons : (d0 :: ip').map digitChar ++ tail =
      digitChar d0 :: (ip'.map digitChar ++ tail) := by
    simp
  have hsign : readSign (digitChar d0 :: (ip'.map digitChar ++ tail)) =
      (false, digitChar d0 :: (ip'.map digitChar ++ tail)) := by
    rw [readSign, if_neg hd0.2.2.2.2.1, if_neg hd0.2.2.2.2.2.1]
  -- the keyword tests all fail on a leading digit
  set low : List Char := (digitChar d0 :: (ip'.map digitChar ++ tail)).map Char.toLower
    with hlow
  have hlowcons : low = digitChar d0 :: (ip'.map digitChar ++ tail).map Char.toLower := by
    rw [hlow, List.map_cons, hd0.2.2.2.2.2.2.1]
  have hinf : ¬(low = "inf".data ∨ low = "infinity".data) := by
    rw [hlowcons]
    rintro (h | h) <;>
      exact absurd (List.head_eq_of_cons_eq h) hd0.2.2.2.2.2.2.2.2.2.2
  have hnan : isNanWord low "nan".data = false := by
    rw [hlowcons]
    show (List.isPrefixOf ('n' :: "an".data) _ && _) = false
    rw [List.isPrefixOf]
    simp only [hd0.2.2.2.2.2.2.2.2.1, Bool.false_and]
  have hsnan : isNanWord low "snan".data = false := by
    rw [hlowcons]
    show (List.isPrefixOf ('s' :: "nan".data) _ && _) = false
    rw [List.isPrefixOf]
    simp only [hd0.2.2.2.2.2.2.2.2.2.1, Bool.false_and]
  -- the numeric body parses the digits
  have htake : takeDigits ((d0 :: ip').map digitChar ++ tail) = (d0 :: ip', tail) := by
    apply takeDigits_append _ _ hd1
    intro c cs2 hc
    rw [htail] at hc
    by_cases hfe : fp.isEmpty
    · rw [if_pos hfe] at hc
      cases hc
    · rw [if_neg hfe] at hc
      injection hc with hc1 _
      rw [← hc1]
      rfl
  have hnum : parseNumericBody ((d0 :: ip').map digitChar ++ tail) =
      some (natOfDigitList ((d0 :: ip') ++ fp), -(fp.length : Int)) := by
    rw [parseNumericBody]
    rw [htake]
    by_cases hfe : fp.isEmpty
    · have hfp : fp = [] := List.isEmpty_iff.mp hfe
      subst hfp
      rw [htail]
      simp only [List.isEmpty_nil, if_true]
      rw [finishNumeric, if_neg (by simp)]
    · have : tail = '.' :: fp.map digitChar := by rw [htail, if_neg hfe]
      rw [this]
      have htake2 : takeDigits (fp.map digitChar) = (fp, []) := by
        have := takeDigits_append fp [] hd2 (by intro c cs2 hc; cases hc)
        simpa using this
      simp only [htake2]
      rw [finishNumeric, if_neg (by simp)]
  -- assemble
  rw [decParse, htrimmed, hstripped, hcons]
  have hstep : decParseChars (digitChar d0 :: (List.map digitChar ip' ++ tail)) =
      decParseBody false (digitChar d0 :: (List.map digitChar ip' ++ tail)) := by
    rw [decParseChars]
    rw [hsign]
  rw [hstep]
  rw [decParseBody]
  simp only [← hlow]
  rw [if_neg hinf, hnan, hsnan]
  simp only [Bool.false_eq_true, if_false]
  rw [← hcons, hnum]

theorem pow_dvd_mul_pow (c a b : Nat) (h : b ≤ a) : (10:Nat) ^ b ∣ c * 10 ^ a := by
  refine ⟨c * 10 ^ (a - b), ?_⟩
  calc c * 10 ^ a = c * 10 ^ (b + (a - b)) := by
        rw [show b + (a - b) = a from by omega]
    _ = c * (10 ^ b * 10 ^ (a - b)) := by rw [pow_add]
    _ = 10 ^ b * (c * 10 ^ (a - b)) := by ring

theorem mul_pow_div_pow (c a b : Nat) (h : b ≤ a) :
    c * 10 ^ a / 10 ^ b = c * 10 ^ (a - b) := by
  have hsplit : c * 10 ^ a = c * 10 ^ (a - b) * 10 ^ b := by
    rw [Nat.mul_assoc, ← pow_add, show a - b + b = a from by omega]
  rw [hsplit, Nat.mul_div_cancel _ (pow_pos (by norm_num) b)]

/-- Evaluation of `parse_amount_to_cents` on a finite parse with at most
two fractional digits and an integer part of at most 26 digits: the
default context either keeps the product exact or rounds away only
trailing zeros, and the result is the exact cent value. -/
theorem parse_finite_small_frac {s : String} {c : Nat} {L : Nat}
    (hp : decParse s = some (.finite false c (-(L : Int)))) (hL : L ≤ 2)
    (hc : numDigits c ≤ 26 + L) :
    parse_amount_to_cents s = .ok (c * 10 ^ (2 - L)) := by
  have htrim : (trimChars s.data).isEmpty = false := trim_nonempty_of_decParse_some hp
  have h100 : c * 100 = c * 10 ^ 2 := by norm_num
  have hnd2 : numDigits (c * 100) ≤ numDigits c + 2 := by
    rw [h100]
    exact numDigits_mul_pow_le c 2
  have hndt : numDigits (c * 10 ^ (2 - L)) ≤ 28 := by
    have := numDigits_mul_pow_le c (2 - L)
    omega
  have hstep : parse_amount_to_cents s =
      (match quantizeHalfUpToInt (times100 c (-(L : Int))).1 (times100 c (-(L : Int))).2 with
       | none => AmountResult.invalidOperation
       | some cents =>
         if valEqInt (times100 c (-(L : Int))).1 (times100 c (-(L : Int))).2 cents
         then AmountResult.ok cents
         else AmountResult.valueError "amount supports up to 2 decimals") := by
    simp only [parse_amount_to_cents, htrim, Bool.false_eq_true, if_false, hp,
      Bool.false_and]
  by_cases hnd : numDigits (c * 100) ≤ 28
  · -- the multiplication by 100 stays within precision
    have hm : times100 c (-(L : Int)) = (c * 100, -(L : Int)) := by
      simp [times100, hnd]
    rcases Nat.eq_zero_or_pos L with hL0 | hLpos
    · -- integral input, exponent 0
      subst hL0
      have hq : quantizeHalfUpToInt (c * 100) (-((0:Nat) : Int)) = some (c * 100) := by
        simp [quantizeHalfUpToInt, hnd]
      have hv : valEqInt (c * 100) (-((0:Nat) : Int)) (c * 100) = true := by
        simp [valEqInt]
      rw [hstep, hm]
      simp only [hq, hv, if_true]
      norm_num
    · -- one or two fractional digits: the division by 10^L is exact
      have hneg : ¬ (0:Int) ≤ -(L : Int) := by omega
      have hdvd : (10:Nat) ^ L ∣ c * 100 := by
        rw [h100]
        exact pow_dvd_mul_pow c 2 L hL
      have hhalf : halfUpDiv (c * 100) (10 ^ L) = c * 10 ^ (2 - L) := by
        rw [halfUpDiv_exact (pow_pos (by norm_num) L) hdvd, h100]
        exact mul_pow_div_pow c 2 L hL
      have hq : quantizeHalfUpToInt (c * 100) (-(L : Int)) = some (c * 10 ^ (2 - L)) := by
        simp only [quantizeHalfUpToInt, if_neg hneg, neg_neg, Int.toNat_natCast]
        rw [hhalf, if_pos hndt]
      have hv : valEqInt (c * 100) (-(L : Int)) (c * 10 ^ (2 - L)) = true := by
        simp only [valEqInt, if_neg hneg, neg_neg, Int.toNat_natCast]
        rw [beq_iff_eq, h100, Nat.mul_assoc, ← pow_add,
          show 2 - L + L = 2 from by omega]
      rw [hstep, hm]
      simp only [hq, hv, if_true]
  · -- the product is rounded, but only zeros are dropped
    have hnd' : numDigits (c * 100) - 28 ≤ L := by omega
    have hsh2 : numDigits (c * 100) - 28 ≤ 2 := by omega
    have hdvdSh : (10:Nat) ^ (numDigits (c * 100) - 28) ∣ c * 100 := by
      rw [h100]
      exact pow_dvd_mul_pow c 2 _ hsh2
    have hEvenEx : halfEvenDiv (c * 100) (10 ^ (numDigits (c * 100) - 28)) =
        c * 10 ^ (2 - (numDigits (c * 100) - 28)) := by
      rw [halfEvenDiv_exact (pow_pos (by norm_num) _) hdvdSh, h100]
      exact mul_pow_div_pow c 2 _ hsh2
    have hm : times100 c (-(L : Int)) =
        (c * 10 ^ (2 - (numDigits (c * 100) - 28)),
         -(L : Int) + (numDigits (c * 100) - 28 : Nat)) := by
      simp only [times100, if_neg hnd, hEvenEx]
    set sh : Nat := numDigits (c * 100) - 28 with hsh
    by_cases hEq : sh = L
    · -- all fractional digits were rounded away (they were zeros)
      have he0 : -(L : Int) + (sh : Int) = 0 := by omega
      have hq : quantizeHalfUpToInt (c * 10 ^ (2 - sh)) (-(L : Int) + (sh : Nat)) =
          some (c * 10 ^ (2 - L)) := by
        simp only [quantizeHalfUpToInt, he0, le_refl, if_pos, Int.toNat_zero, pow_zero,
          Nat.mul_one]
        rw [hEq, if_pos hndt]
      have hv : valEqInt (c * 10 ^ (2 - sh)) (-(L : Int) + (sh : Nat))
          (c * 10 ^ (2 - L)) = true := by
        simp only [valEqInt, he0, le_refl, if_pos, Int.toNat_zero, pow_zero, Nat.mul_one]
        rw [beq_iff_eq, hEq]
      rw [hstep, hm]
      simp only [hq, hv, if_true]
    · -- some fractional digits remain: exact half-up division
      have hlt : sh < L := by omega
      have hneg : ¬ (0:Int) ≤ -(L : Int) + (sh : Nat) := by omega
      have htn : (-(-(L : Int) + (sh : Nat))).toNat = L - sh := by omega
      have hdvd2 : (10:Nat) ^ (L - sh) ∣ c * 10 ^ (2 - sh) :=
        pow_dvd_mul_pow c (2 - sh) (L - sh) (by omega)
      have hhalf : halfUpDiv (c * 10 ^ (2 - sh)) (10 ^ (L - sh)) = c * 10 ^ (2 - L) := by
        rw [halfUpDiv_exact (pow_pos (by norm_num) _) hdvd2,
          mul_pow_div_pow c (2 - sh) (L - sh) (by omega),
          show 2 - sh - (L - sh) = 2 - L from by omega]
      have hq : quantizeHalfUpToInt (c * 10 ^ (2 - sh)) (-(L : Int) + (sh : Nat)) =
          some (c * 10 ^ (2 - L)) := by
        simp only [quantizeHalfUpToInt, if_neg hneg, htn]
        rw [hhalf, if_pos hndt]
      have hv : valEqInt (c * 10 ^ (2 - sh)) (-(L : Int) + (sh : Nat))
          (c * 10 ^ (2 - L)) = true := by
        simp only [valEqInt, if_neg hneg, htn]
        rw [beq_iff_eq, Nat.mul_assoc, ← pow_add,
          show 2 - L + (L - sh) = 2 - sh from by omega]
      rw [hstep, hm]
      simp only [hq, hv, if_true]

/-- C4 (amended): every canonical decimal numeral with at most 2 fractional
digits, a non-negative value and an integer part of at most 26 digits
(so that the scaled value fits the default 28-digit context; wider
inputs escape with `decimal.InvalidOperation`, see the counterexample)
parses successfully, and the returned cents reconstruct the numeral's
exact value: `cents * 10^frac = digits * 100`, i.e. `cents/100` is the
original number. -/
theorem c4_amended_round_trip (ip fp : List Nat)
    (hip : ip ≠ []) (hd1 : ∀ d ∈ ip, d < 10) (hd2 : ∀ d ∈ fp, d < 10)
    (hfl : fp.length ≤ 2) (hil : ip.length ≤ 26) :
    parse_amount_to_cents (renderAmount ip fp) =
      .ok (natOfDigitList (ip ++ fp) * 10 ^ (2 - fp.length)) ∧
    natOfDigitList (ip ++ fp) * 10 ^ (2 - fp.length) * 10 ^ fp.length =
      natOfDigitList (ip ++ fp) * 100 := by
  have hparse := decParse_renderAmount ip fp hip hd1 hd2
  have hclt : natOfDigitList (ip ++ fp) < 10 ^ (ip.length + fp.length) := by
    have hall : ∀ d ∈ ip ++ fp, d < 10 := by
      intro d hd
      rcases List.mem_append.mp hd with h | h
      · exact hd1 d h
      · exact hd2 d h
    have := natOfDigitList_lt (ip ++ fp) hall
    simpa using this
  have hnum : numDigits (natOfDigitList (ip ++ fp)) ≤ 26 + fp.length := by
    apply (numDigits_le_iff (by omega)).mpr
    calc natOfDigitList (ip ++ fp) < 10 ^ (ip.length + fp.length) := hclt
      _ ≤ 10 ^ (26 + fp.length) := Nat.pow_le_pow_right (by norm_num) (by omega)
  refine ⟨parse_finite_small_frac hparse hfl hnum, ?_⟩
  rw [Nat.mul_assoc, ← pow_add, show 2 - fp.length + fp.length = 2 from by omega]
  norm_num

/-- Witness for the amended C4 at the numeral `10.05`. -/
theorem c4_amended_witness :
    parse_amount_to_cents (renderAmount [1, 0] [0, 5]) = .ok 1005 := by
  rw [(c4_amended_round_trip [1, 0] [0, 5] (by decide) (by decide) (by decide)
    (by decide) (by decide)).1]
  decide
